import Mathlib

/-
Verification of the Jotoba search core against its specification.

The Rust sources are embedded shallowly: strings are Lean `String`s
(sequences of Unicode scalar values, matching Rust `char` iteration),
machine integers are `Nat` with explicit truncation where overflow can
occur, and fallible code returns `Option`.  Every definition is
translated from the repository sources; the few places where the
deciding code lives outside the visible sources (external crates or
crates of the repository that are not part of the visible tree) are
modelled from the specification and marked as such in their doc
comments.
-/

namespace Jotoba

/-! ## lib/types/src/jotoba/words/sense.rs: sense/gloss id packing -/

/-- Embeds `to_unique_id` (sense.rs): `(sense_id as u16) << 8 | gloss_id as u16`.
`sense_id` and `gloss_id` are `u8` values, modelled as naturals below 256;
the shift-or on disjoint byte ranges is `sense_id * 256 + gloss_id`,
truncated to `u16` range. -/
def to_unique_id (sense_id gloss_id : Nat) : Nat :=
  (sense_id % 256 * 256 + gloss_id % 256) % 65536

/-- Embeds `from_unique_id` (sense.rs): low byte is the gloss id
(`id as u8`), high byte is the sense id (`(id >> 8) as u8`). -/
def from_unique_id (id : Nat) : Nat × Nat :=
  (id / 256 % 256, id % 256)

/-! ## lib/japanese/src/lib.rs: width folding

Characters are modelled by their Unicode scalar value (`Nat`), which is
exactly what the Rust code manipulates (`c as u32`). -/

/-- Embeds `map_char` (japanese/lib.rs): if the scalar value lies in
`range` (half-open), apply the shift, otherwise keep the character. -/
def map_char (lo hi : Nat) (conv : Nat → Nat) (c : Nat) : Nat :=
  if lo ≤ c ∧ c < hi then conv c else c

/-- Embeds `shift_unicode` (japanese/lib.rs): map every character of the
string through `map_char`. -/
def shift_unicode (lo hi : Nat) (conv : Nat → Nat) (s : List Nat) : List Nat :=
  s.map (map_char lo hi conv)

/-- Embeds `to_halfwidth` (japanese/lib.rs): shift scalar values in
`0xff01..0xff5f` down by `0xfee0`. -/
def to_halfwidth (s : List Nat) : List Nat :=
  shift_unicode 0xff01 0xff5f (fun x => x - 0xfee0) s

/-- Embeds `to_fullwidth` (japanese/lib.rs): shift scalar values in
`0x0021..0x007f` up by `0xfee0`. -/
def to_fullwidth (s : List Nat) : List Nat :=
  shift_unicode 0x0021 0x007f (fun x => x + 0xfee0) s

/-- A scalar value below `0x80`, i.e. an ASCII character. -/
def isAsciiCode (c : Nat) : Prop := c < 0x80

instance (c : Nat) : Decidable (isAsciiCode c) := by
  unfold isAsciiCode
  infer_instance

/-- A fullwidth-ASCII scalar value: the fullwidth forms `U+FF01..=U+FF5E`
that correspond one-to-one to the halfwidth ASCII range `U+0021..=U+007E`. -/
def isFullwidthAsciiCode (c : Nat) : Prop := 0xff01 ≤ c ∧ c ≤ 0xff5e

instance (c : Nat) : Decidable (isFullwidthAsciiCode c) := by
  unfold isFullwidthAsciiCode
  infer_instance

/-! ## lib/api/src/completions/request.rs: validation -/

/-- Modelled from the spec: `utils::real_string_len` (the `utils` crate is
not part of the visible sources).  The spec describes it as the real
character length of the string, counted in code points. -/
def real_string_len (s : String) : Nat := s.data.length

/-- Embeds Rust `str::trim`: drop whitespace characters from both ends of
the string. -/
def rustTrim (s : String) : String :=
  String.mk
    ((s.data.dropWhile Char.isWhitespace).reverse.dropWhile
      Char.isWhitespace).reverse

/-- Outcome of an API request validation. -/
inductive ValidateResult where
  | ok : ValidateResult
  | badRequest : ValidateResult
deriving DecidableEq, Repr

/-- The payload fields of a completion `Request` used by `validate` and
`adjust` (request.rs). -/
structure CRequest where
  input : String
  hashtag : Bool
deriving Repr

/-- Embeds `validate` (completions/request.rs): reject with `BadRequest`
when the trimmed input has real length `< 1` (unless the `hashtag` flag
is set) or `> 37`; accept otherwise. -/
def validate (payload : CRequest) : ValidateResult :=
  let query_len := real_string_len (rustTrim payload.input)
  if (query_len < 1 ∧ ¬payload.hashtag) ∨ query_len > 37 then
    ValidateResult.badRequest
  else
    ValidateResult.ok

/-! ## lib/japanese/src/lib.rs: character classification -/

/-- Embeds `char::is_hiragana` (japanese/lib.rs): `U+3040..=U+309F`. -/
def is_hiragana_c (c : Char) : Bool :=
  decide (0x3040 ≤ c.toNat ∧ c.toNat ≤ 0x309F)

/-- Embeds `char::is_katakana` (japanese/lib.rs): `U+30A0..=U+30FF`. -/
def is_katakana_c (c : Char) : Bool :=
  decide (0x30A0 ≤ c.toNat ∧ c.toNat ≤ 0x30FF)

/-- Embeds `char::is_kana` (japanese/lib.rs). -/
def is_kana_c (c : Char) : Bool := is_hiragana_c c || is_katakana_c c

/-- Embeds `char::is_kanji` (japanese/lib.rs). -/
def is_kanji_c (c : Char) : Bool :=
  decide ((0x3400 ≤ c.toNat ∧ c.toNat ≤ 0x4DBF)
    ∨ (0x4E00 ≤ c.toNat ∧ c.toNat ≤ 0x9FFF)
    ∨ (0xF900 ≤ c.toNat ∧ c.toNat ≤ 0xFAFF)
    ∨ (0xFF10 ≤ c.toNat ∧ c.toNat ≤ 0xFF19)
    ∨ (0x20000 ≤ c.toNat ∧ c.toNat ≤ 0x2A6DF)
    ∨ c.toNat = 0x29E8A)

/-- Embeds `char::is_symbol` (japanese/lib.rs). -/
def is_symbol_c (c : Char) : Bool :=
  decide ((0x3000 ≤ c.toNat ∧ c.toNat ≤ 0x303F)
    ∨ (0x0370 ≤ c.toNat ∧ c.toNat ≤ 0x03FF)
    ∨ (0x25A0 ≤ c.toNat ∧ c.toNat ≤ 0x25FF)
    ∨ (0xFF01 ≤ c.toNat ∧ c.toNat ≤ 0xFF0F)
    ∨ (0xFF1A ≤ c.toNat ∧ c.toNat ≤ 0xFF20)
    ∨ (0xFF3B ≤ c.toNat ∧ c.toNat ≤ 0xFF40)
    ∨ (0xFF5B ≤ c.toNat ∧ c.toNat ≤ 0xFF5E)
    ∨ c.toNat = 0x002D ∨ c.toNat = 0x3005 ∨ c.toNat = 0x00D7)

/-- Embeds `char::is_roman_letter` (japanese/lib.rs). -/
def is_roman_letter_c (c : Char) : Bool :=
  decide ((0xFF01 ≤ c.toNat ∧ c.toNat ≤ 0xFF5A)
    ∨ (0x2000 ≤ c.toNat ∧ c.toNat ≤ 0x206F)
    ∨ (0x20000 ≤ c.toNat ∧ c.toNat ≤ 0x2A6DF)
    ∨ c.toNat = 0x2010 ∨ c.toNat = 0x2212)

/-- Embeds `char::is_japanese` (japanese/lib.rs): kana, kanji, symbol or
roman letter. -/
def is_japanese_c (c : Char) : Bool :=
  is_kana_c c || is_kanji_c c || is_symbol_c c || is_roman_letter_c c

/-- Embeds the `CharType` enum (japanese/lib.rs). -/
inductive CharType where
  | kana : CharType
  | kanji : CharType
  | symbol : CharType
  | other : CharType
deriving DecidableEq, Repr

/-- Embeds `char::get_text_type` (japanese/lib.rs): symbol first, then
kana, then kanji-or-roman-letter, otherwise other. -/
def get_text_type_c (c : Char) : CharType :=
  if is_symbol_c c then CharType.symbol
  else if is_kana_c c then CharType.kana
  else if is_kanji_c c || is_roman_letter_c c then CharType.kanji
  else CharType.other

/-- Embeds `char::is_of_type` (japanese/lib.rs). -/
def is_of_type_c (c : Char) (ct : CharType) : Bool :=
  decide (get_text_type_c c = ct)

/-- Embeds `str::is_kanji` (japanese/lib.rs): every character is kanji. -/
def is_kanji_str (s : String) : Bool := s.data.all is_kanji_c

/-- Embeds `str::has_kanji` (japanese/lib.rs): some character is kanji. -/
def has_kanji_str (s : String) : Bool := s.data.any is_kanji_c

/-! ## Query language and form (lib/search query model)

The query parser module itself is not part of the visible sources; the
spec gives the script and form alphabets, which is all the embedded code
needs. -/

/-- Modelled from the spec: the script alphabet of a query,
`script ∈ Japanese, Foreign, Korean, Undetected`. -/
inductive QueryLang where
  | japanese : QueryLang
  | foreign : QueryLang
  | korean : QueryLang
  | undetected : QueryLang
deriving DecidableEq, Repr

/-- Modelled from the spec: the form alphabet of a query,
`form ∈ Normal, KanjiReading, TagOnly, Regex`. -/
inductive QueryForm where
  | normal : QueryForm
  | kanjiReading : QueryForm
  | tagOnly : QueryForm
  | regex : QueryForm
deriving DecidableEq, Repr

/-! ## lib/api/src/completions/request.rs: query adjustment -/

/-- UTF-8 encoded length of one character, as Rust `char::len_utf8`. -/
def utf8Len (c : Char) : Nat :=
  if c.toNat < 0x80 then 1
  else if c.toNat < 0x800 then 2
  else if c.toNat < 0x10000 then 3
  else 4

/-- UTF-8 byte length of a string, as Rust `str::len`. -/
def utf8LenStr (s : String) : Nat := (s.data.map utf8Len).sum

/-- Longest prefix of the character list whose UTF-8 encoding fits in
`budget` bytes.  This models Rust byte-slicing `&s[..keep]`: the code
only ever slices at the end of a run of whole characters (Rust would
panic on a non-boundary index, a case no embedded call reaches). -/
def byteTake : Nat → List Char → List Char
  | _, [] => []
  | budget, c :: rest =>
    if utf8Len c ≤ budget then c :: byteTake (budget - utf8Len c) rest
    else []

/-- Rust `str::ends_with` for a one-character pattern: the last character
equals `c`. -/
def strEndsWith (s : String) (c : Char) : Bool :=
  decide (s.data.getLast? = some c)

/-- Rust `str::replace` for a one-character pattern: every occurrence of
`a` is replaced by `b`. -/
def replaceChar (s : String) (a b : Char) : String :=
  String.mk (s.data.map (fun c => if c = a then b else c))

/-- Modelled from the spec: `query::parser::lang::parse` (the query
parser module is not part of the visible sources).  The spec classifies
a string as Japanese when any character is japanese and the string is
not dominated by roman letters in a foreign pattern (modelled: not more
than half of the characters are ASCII letters); otherwise it is Foreign
when nonempty, Undetected when empty. -/
def specLangClassify (s : String) : QueryLang :=
  if s.data.any is_japanese_c
      ∧ ¬(2 * (s.data.filter (fun c => c.isAlpha)).length > s.data.length) then
    QueryLang.japanese
  else if s.data.isEmpty then QueryLang.undetected
  else QueryLang.foreign

/-- Embeds `adjust` (completions/request.rs).  The language classifier is
passed as a parameter (its implementation lives outside the visible
sources).  Step one: when the classified language is Japanese and the
input ends with a fullwidth `ｎ`, `str::replace` rewrites every `ｎ` to
`ん`.  Step two: when the language is Japanese, the last two characters
are all japanese, and the original real length exceeds one, the total
UTF-8 length of the roman letters among the last two characters is cut
from the end of the byte string. -/
def adjust (langOf : String → QueryLang) (input : String) : String :=
  let query_len := real_string_len input
  let lang := langOf input
  let q1 :=
    if lang = QueryLang.japanese ∧ strEndsWith input 'ｎ' then
      replaceChar input 'ｎ' 'ん'
    else input
  let last_chars := q1.data.reverse.take 2
  if lang = QueryLang.japanese
      ∧ (last_chars.any (fun i => !(is_japanese_c i))) = false
      ∧ query_len > 1 ∧ last_chars ≠ [] then
    let cut := ((last_chars.filter is_roman_letter_c).map utf8Len).sum
    String.mk (byteTake (utf8LenStr q1 - cut) q1.data)
  else q1

/-! ## lib/search/src/word/producer/japanese/sentence_reader.rs:
producer gating -/

/-- Embeds the shape of `ParseResult` (sentence_reader output): nothing
parsed, a single inflected word, or a sentence. -/
inductive ParsedKind where
  | nothing : ParsedKind
  | inflectedWord : ParsedKind
  | sentence : ParsedKind
deriving DecidableEq, Repr

/-- The query fields read by `SReaderProducer::should_run`. -/
structure SQuery where
  q_lang : QueryLang
  form : QueryForm
  query_str : String

/-- Embeds `SReaderProducer::should_run` (sentence_reader.rs).  The
`word_exists` probe hits the native search engine; its outcome is passed
in as `wordExists`. -/
def sreader_should_run (parsed : ParsedKind) (q : SQuery)
    (wordExists : Bool) : Bool :=
  if parsed = ParsedKind.nothing ∨ q.q_lang ≠ QueryLang.japanese
      ∨ q.form ≠ QueryForm.normal ∨ q.form = QueryForm.regex
      ∨ q.query_str = "" then
    false
  else if parsed = ParsedKind.inflectedWord then true
  else if real_string_len q.query_str ≤ 3 then false
  else !wordExists

/-! ## sentence_reader.rs: furigana ranking (`word_furi_order`) -/

/-- The word fields read by `word_furi_order`.  The `Word` accessors
(`get_reading().reading`, `get_kana`, `has_pos`, `is_common`,
`get_jlpt_lvl`) live in the types crate outside the visible sources and
are modelled as record fields following the spec's Word entity. -/
structure WordM where
  reading : String
  kana : String
  pos_tags : List Nat
  common : Bool
  jlpt : Option Nat

/-- Models `Word::has_pos` for a one-element slice: the word carries the
given simple part-of-speech tag (tags abstracted as naturals). -/
def has_pos (w : WordM) (p : Nat) : Bool := w.pos_tags.contains p

/-- Embeds `word_furi_order` (sentence_reader.rs).  `freq` models
`indexes.kanji().reading_fre().norm_reading_freq(kanji, kana)` composed
with the `(norm * 10.0) as usize` conversion — the kanji reading
frequency index is not part of the visible sources, so the resulting
natural bump is passed as a function.  Nat subtraction is Rust
`saturating_sub`. -/
def word_furi_order (freq : Char → String → Option Nat) (i : WordM)
    (pos : Option Nat) (morph : String) : Nat :=
  let score : Nat := 0
  let score := if i.reading = morph then score + 100 else score
  let score :=
    if real_string_len i.reading = 1 ∧ is_kanji_str i.reading = true then
      match i.reading.data.head? with
      | some kanji =>
        match freq kanji i.kana with
        | some norm => score + norm
        | none => score
      | none => score
    else score
  let score :=
    match pos with
    | some p => if has_pos i p then score + 20 else score - 30
    | none => score
  let score := if i.common then score + 2 else score
  if i.jlpt.isSome then score + 2 else score

/-- Modelled from the spec: the furigana ranking formula as the spec
words it — the sum of 100 when the reading equals the morpheme, plus 20
when the POS matches, minus 30 (saturating at zero) when a POS is given
and mismatches, plus 2 when common, plus 2 when JLPT-tagged, plus a
normalized-reading-frequency bump for single-kanji morphemes, applied in
the listed order. -/
def furi_order_spec (freq : Char → String → Option Nat) (i : WordM)
    (pos : Option Nat) (morph : String) : Nat :=
  let score : Nat := 0
  let score := if i.reading = morph then score + 100 else score
  let score :=
    match pos with
    | some p => if has_pos i p then score + 20 else score - 30
    | none => score
  let score := if i.common then score + 2 else score
  let score := if i.jlpt.isSome then score + 2 else score
  if real_string_len morph = 1 ∧ is_kanji_str morph = true then
    match morph.data.head? with
    | some k =>
      match freq k i.kana with
      | some norm => score + norm
      | none => score
    | none => score
  else score

/-- The frequency bump actually used by `word_furi_order`: present when
the WORD'S READING is a single kanji character. -/
def reading_bump (freq : Char → String → Option Nat) (i : WordM) : Nat :=
  if real_string_len i.reading = 1 ∧ is_kanji_str i.reading = true then
    match i.reading.data.head? with
    | some k => (freq k i.kana).getD 0
    | none => 0
  else 0

/-- A concrete frequency table for the C4 counterexample: reading
frequency 25 for any kanji read as ひ. -/
def furiFreqCx : Char → String → Option Nat :=
  fun _ kana => if kana = "ひ" then some 25 else none

/-- A concrete word for the C4 counterexample: single-kanji reading 火,
kana ひ, no POS tags, not common, no JLPT level. -/
def furiWordCx : WordM :=
  { reading := "火", kana := "ひ", pos_tags := [], common := false,
    jlpt := none }

/-! ## lib/sentence_reader/src/sentence/part.rs: furigana merge -/

/-- Helper for `runsOf`: `curr` is the (reversed) run currently being
accumulated, as the `curr` string of the Rust loop. -/
def runsOfAux (p : Char → Bool) (curr : List Char) :
    List Char → List (List Char)
  | [] => if curr = [] then [] else [curr.reverse]
  | c :: rest =>
    if p c then runsOfAux p (c :: curr) rest
    else if curr = [] then runsOfAux p [] rest
    else curr.reverse :: runsOfAux p [] rest

/-- Maximal runs of consecutive characters satisfying `p`, in order.
This is the grouping computed by `all_words_with_ct`
(japanese/lib.rs): matching characters accumulate into the current run
and any non-matching stretch closes it. -/
def runsOf (p : Char → Bool) (l : List Char) : List (List Char) :=
  runsOfAux p [] l

/-- Embeds `all_words_with_ct` (japanese/lib.rs): all maximal runs of
characters whose text type is `ct`. -/
def all_words_with_ct (s : String) (ct : CharType) : List String :=
  (runsOf (fun c => is_of_type_c c ct) s.data).map String.mk

/-- One parsed furigana segment, as produced by `furigana::parse::from_str`
(the furigana module is not part of the visible sources; the segment
shape is modelled from the spec's wire format: plain kana runs or
bracketed kanji-kana pairs). -/
structure FuriPart where
  kanji : Option String
  kana : String
deriving DecidableEq, Repr

/-- Modelled from the spec: `SentencePartRef::encode` emits a bracketed
pair for a kanji-carrying segment and the plain kana otherwise. -/
def encodePart (p : FuriPart) : String :=
  match p.kanji with
  | some k => "[" ++ k ++ "|" ++ p.kana ++ "]"
  | none => p.kana

/-- Encoding of a whole furigana segment list. -/
def encodeFuri (ps : List FuriPart) : String :=
  String.join (ps.map encodePart)

/-- The alignment loop of `merge_furigana` (part.rs): `kana` is the
iterator over the surface's kana runs, `pool` the iterator over the
surface's kanji characters.  A kana-only segment consumes (and emits)
the next surface kana run, silently skipping when the run pool is
empty; a kanji segment consumes one pool character per kanji character
and aborts the whole merge (`None`) when the pool underflows. -/
def mergeFuriAux : List String → List Char → List FuriPart → Option String
  | _, _, [] => some ""
  | kana, pool, part :: rest =>
    match part.kanji with
    | none =>
      match kana with
      | [] => mergeFuriAux [] pool rest
      | r :: krest => (mergeFuriAux krest pool rest).map (fun out => r ++ out)
    | some k =>
      if k.data.length ≤ pool.length then
        (mergeFuriAux kana (pool.drop k.data.length) rest).map
          (fun out =>
            encodePart { kanji := some (String.mk (pool.take k.data.length)),
                         kana := part.kana } ++ out)
      else none

/-- Embeds `merge_furigana` (part.rs): align the parsed dictionary
furigana against the surface's kana runs and kanji-character pool. -/
def merge_furigana (src : String) (furi : List FuriPart) : Option String :=
  mergeFuriAux (all_words_with_ct src CharType.kana)
    (((all_words_with_ct src CharType.kanji).map String.data).flatten) furi

/-- A morpheme as consumed by `Part::set_furigana`: its surface and the
reading handed to the lookup (`OwnedMorpheme::reading`, outside the
visible sources, returns the lexeme or falls back on the surface). -/
structure MorphM where
  surface : String
  reading : String

/-- Embeds `Part::set_furigana` (part.rs).  The lookup returns parsed
furigana segments (the raw string of the source corresponds to their
encoding; per the spec wire format the raw string contains a pipe
exactly when some segment carries kanji).  A surface without kanji, a
failed lookup, and a lookup without furigana effect all append plain
text; a successful merge appends the merged furigana and marks the part
as carrying furigana.  The part's furigana is set only when some
morpheme merged successfully. -/
def set_furigana (add_fn : String → Option (List FuriPart))
    (morphemes : List MorphM) : Option String :=
  let step := fun (acc : String × Bool) (m : MorphM) =>
    if ¬has_kanji_str m.surface then (acc.1 ++ m.surface, acc.2)
    else
      match add_fn m.reading with
      | some furi =>
        if ¬furi.any (fun p => p.kanji.isSome) then
          (acc.1 ++ encodeFuri furi, acc.2)
        else
          match merge_furigana m.surface furi with
          | some merged => (acc.1 ++ merged, true)
          | none => acc
      | none => (acc.1 ++ m.surface, acc.2)
  let out := morphemes.foldl step ("", false)
  if out.2 then some out.1 else none

/-- Total number of kanji characters the furigana segments demand from
the surface's kanji pool. -/
def totalKanjiNeed (furi : List FuriPart) : Nat :=
  (furi.map (fun p =>
    match p.kanji with
    | some k => k.data.length
    | none => 0)).sum

/-- Number of kanji characters in a string (per the embedded char
classes). -/
def countKanji (s : String) : Nat := (s.data.filter is_kanji_c).length

/-! ## lib/search/src/engine/words/native/mod.rs: query compilation -/

/-- Modelled from the spec: the sentinel character used by
`ngindex2::utils::padded` (the ngindex crate is not part of the visible
sources; the spec only requires a sentinel of length `N-1` on both
sides). -/
def padChar : Char := '\uF8FF'

/-- Modelled from the spec: `padded(inp, N-1)` pads the input with a
sentinel of length `N-1` on both sides. -/
def pad (s : List Char) (k : Nat) : List Char :=
  List.replicate k padChar ++ s ++ List.replicate k padChar

/-- Sliding character windows of width `n` (step one), as iterated by
`ngindex2::Wordgrams`; `n` is the engine's `NATIVE_NGRAM` and is
positive. -/
def wordgrams (n : Nat) : List Char → List (List Char)
  | [] => []
  | c :: rest =>
    if rest.length + 1 < n ∨ n = 0 then []
    else (c :: rest).take n :: wordgrams n rest

/-- Modelled from the spec: `TermSet::new` canonicalizes the compiled
query — a `TermSet` is always sorted ascending and unique; the term-id
list handed over by `make_query` is already sorted, so deduplication
completes the canonical form. -/
def termSetNew (l : List Nat) : List Nat := l.dedup

/-- Embeds `Engine::make_query` (native/mod.rs): map every n-gram of the
padded input through the index dictionary (`dict.get_id`), drop unknown
grams, sort (`sort_unstable`), and return `None` when no gram mapped,
otherwise the `TermSet`.  Term-ids (`u32`) are modelled as naturals;
`dict` models the immutable index dictionary. -/
def make_query (dict : List Char → Option Nat) (n : Nat)
    (inp : List Char) : Option (List Nat) :=
  let tids :=
    ((wordgrams n (pad inp (n - 1))).filterMap dict).insertionSort (· ≤ ·)
  if tids = [] then none else some (termSetNew tids)

/-! ## lib/search/src/word/mod.rs: gloss search romaji fallback -/

/-- One result row carried through the gloss search: an abstract word
handle, the relevance score, and the language tag. -/
structure GlossItem where
  word : Nat
  relevance : Nat
  language : Option Nat
deriving DecidableEq, Repr

/-- The environment a `gloss_results` run observes: the items found by
the foreign-engine search, the `could_be_romaji` heuristic on the query,
the foreign-engine `has_term` probe on the lowercased query, and the
outcome of the native search on the hiragana-converted query (`none`
models an `Err` result).  All of these are produced by engines whose
index state is external to the embedded function. -/
structure GlossEnv where
  glossItems : List GlossItem
  couldBeRomaji : Bool
  hasTermLower : Bool
  nativeItems : Option (List GlossItem)

/-- The query fields read by `gloss_results`. -/
structure GQuery where
  language : QueryLang
  use_original : Bool
  query : String

/-- The observable outcome of `gloss_results` relevant to the romaji
fallback: whether the fallback native search ran, which query string it
searched, and the merged result rows. -/
structure GlossOutcome where
  fallbackPerformed : Bool
  fallbackQuery : Option String
  merged : List GlossItem
deriving Repr

/-- Embeds the control flow of `Search::gloss_results` (word/mod.rs)
around the romaji fallback.  `fmtRomajiNN` and `toHira` model
`utils::format_romaji_nn` and `RomajiExt::to_hiragana` (both outside the
visible sources).  The search returns early unless the query language is
Foreign or Undetected; the fallback block runs exactly under the
conjunction in the source (`!use_original && count < 50 &&
could_be_romaji && !has_term(lowercased)`), converts the query, and
merges the native hits into the same result list, keeping each item's
relevance and language tag. -/
def gloss_results (fmtRomajiNN : String → String) (toHira : String → String)
    (env : GlossEnv) (q : GQuery) : GlossOutcome :=
  if ¬(q.language = QueryLang.foreign ∨ q.language = QueryLang.undetected)
  then
    { fallbackPerformed := false, fallbackQuery := none, merged := [] }
  else
    let res := env.glossItems
    let count := res.length
    if ¬q.use_original ∧ count < 50 ∧ env.couldBeRomaji
        ∧ ¬env.hasTermLower then
      let hg_query := toHira (fmtRomajiNN q.query)
      match env.nativeItems with
      | some native =>
        { fallbackPerformed := true, fallbackQuery := some hg_query,
          merged := res ++ native.map (fun i =>
            { word := i.word, relevance := i.relevance,
              language := i.language }) }
      | none =>
        { fallbackPerformed := true, fallbackQuery := some hg_query,
          merged := res }
    else
      { fallbackPerformed := false, fallbackQuery := none, merged := res }

/-! ## lib/search/src/executor/out_builder.rs: the output builder

The `priority_container` crate providing `StableUniquePrioContainerMax`
is not part of the visible sources; the container is modelled from the
spec: a bounded max-priority container that keeps at most `limit` best
items, deduplicates by item identity preserving the highest-scored
instance, and is stable — equal relevances preserve first-insertion
order.  Relevance (`f32` in the source) is modelled as a natural score;
`seq` records the insertion sequence number that implements
stability. -/

/-- A `ResultItem` as pushed into the builder: the item and its
relevance. -/
structure RItem (I : Type) where
  item : I
  relevance : Nat
deriving DecidableEq, Repr

/-- A stored entry of the container: item, relevance and insertion
sequence number. -/
structure PEntry (I : Type) where
  item : I
  relevance : Nat
  seq : Nat
deriving DecidableEq, Repr

/-- Modelled from the spec: the state of
`StableUniquePrioContainerMax`. -/
structure PrioContainer (I : Type) where
  capacity : Nat
  entries : List (PEntry I)
  counter : Nat

/-- The worse of two entries under the container's priority order: lower
relevance is worse, and among equal relevances the later insertion
(larger `seq`) is worse — the first inserted wins the tie. -/
def worseOf {I : Type} (a b : PEntry I) : PEntry I :=
  if b.relevance < a.relevance ∨ (b.relevance = a.relevance ∧ a.seq < b.seq)
  then b else a

/-- The worst entry of a list under the container's priority order. -/
def findWorst {I : Type} : List (PEntry I) → Option (PEntry I)
  | [] => none
  | e :: rest => some (rest.foldl worseOf e)

/-- Drop the worst entry (capacity eviction). -/
def removeWorst {I : Type} [DecidableEq I] (l : List (PEntry I)) :
    List (PEntry I) :=
  match findWorst l with
  | some w => l.erase w
  | none => l

/-- Modelled from the spec: `StableUniquePrioContainerMax::insert`.  A
duplicate (same item identity) keeps the best-scored copy, ties keeping
the earlier entry; a new item is appended and the worst entry is
evicted when the capacity is exceeded. -/
def cinsert {I : Type} [DecidableEq I] (c : PrioContainer I)
    (it : RItem I) : PrioContainer I :=
  match c.entries.find? (fun e => decide (e.item = it.item)) with
  | some e =>
    if e.relevance < it.relevance then
      { c with
        entries := c.entries.map (fun x =>
          if x.item = it.item then
            { item := it.item, relevance := it.relevance, seq := c.counter }
          else x),
        counter := c.counter + 1 }
    else { c with counter := c.counter + 1 }
  | none =>
    let added := c.entries ++
      [{ item := it.item, relevance := it.relevance, seq := c.counter }]
    { c with
      entries :=
        if c.capacity < added.length then removeWorst added else added,
      counter := c.counter + 1 }

/-- Embeds `OutputBuilder` (out_builder.rs): the priority container plus
the filter (the `OA` side-channel is irrelevant to the claim). -/
structure OutBuilder (I : Type) where
  p : PrioContainer I
  filter : I → Bool

/-- Embeds `OutputBuilder::new` (out_builder.rs); `len` is asserted
positive in the source. -/
def OutBuilder.new {I : Type} (filter : I → Bool) (len : Nat) :
    OutBuilder I :=
  { p := { capacity := len, entries := [], counter := 0 }, filter := filter }

/-- Embeds `OutputBuilder::push` (out_builder.rs): when the filter does
NOT filter the item out (`!(self.filter)(&item.item)`), insert it and
return `true`; otherwise return `false` and leave the container
untouched. -/
def OutBuilder.push {I : Type} [DecidableEq I] (b : OutBuilder I)
    (item : RItem I) : Bool × OutBuilder I :=
  if !(b.filter item.item) then (true, { b with p := cinsert b.p item })
  else (false, b)

/-- Fold a whole insertion sequence through `push`. -/
def pushAll {I : Type} [DecidableEq I] (b : OutBuilder I)
    (items : List (RItem I)) : OutBuilder I :=
  items.foldl (fun b i => (b.push i).2) b

/-- Pairwise distinct item identities. -/
def distinctItems {I : Type} (l : List (PEntry I)) : Prop :=
  l.Pairwise (fun e1 e2 => e1.item ≠ e2.item)

end Jotoba

namespace Jotoba

lemma byteTake_full (l : List Char) : byteTake ((l.map utf8Len).sum) l = l := by
  induction l with
  | nil => rfl
  | cons c rest ih =>
    simp only [byteTake, List.map_cons, List.sum_cons]
    rw [if_pos (Nat.le_add_right _ _)]
    rw [Nat.add_sub_cancel_left]
    rw [ih]

lemma replaceChar_endsWith (s : String) (a b : Char)
    (h : strEndsWith s a = true) : strEndsWith (replaceChar s a b) b = true := by
  unfold strEndsWith at h ⊢
  unfold replaceChar
  rw [decide_eq_true_iff] at h ⊢
  show (s.data.map _).getLast? = _
  rw [List.getLast?_map, h]
  simp

/-! ## Claim theorems (C10, C7, C8) -/

/-- C10: packing a sense id and a gloss id (both `u8`) into one `u16`
with `to_unique_id` and unpacking with `from_unique_id` is lossless. -/
theorem sense_unique_id_roundtrip (sense_id gloss_id : Nat)
    (hs : sense_id < 256) (hg : gloss_id < 256) :
    from_unique_id (to_unique_id sense_id gloss_id) = (sense_id, gloss_id) := by
  unfold to_unique_id from_unique_id
  have hs' : sense_id % 256 = sense_id := Nat.mod_eq_of_lt hs
  have hg' : gloss_id % 256 = gloss_id := Nat.mod_eq_of_lt hg
  rw [hs', hg']
  have hlt : sense_id * 256 + gloss_id < 65536 := by omega
  rw [Nat.mod_eq_of_lt hlt]
  simp only [Prod.mk.injEq]
  constructor <;> omega

/-- Witness for C10 at the concrete input `(3, 250)`. -/
theorem sense_unique_id_roundtrip_witness :
    from_unique_id (to_unique_id 3 250) = (3, 250) :=
  sense_unique_id_roundtrip 3 250 (by decide) (by decide)

lemma map_char_half_full (c : Nat) (h : isAsciiCode c) :
    map_char 0xff01 0xff5f (fun x => x - 0xfee0)
      (map_char 0x0021 0x007f (fun x => x + 0xfee0) c) = c := by
  unfold isAsciiCode at h
  simp only [map_char]
  split_ifs <;> omega

lemma map_char_full_half (c : Nat) (h : isFullwidthAsciiCode c) :
    map_char 0x0021 0x007f (fun x => x + 0xfee0)
      (map_char 0xff01 0xff5f (fun x => x - 0xfee0) c) = c := by
  obtain ⟨h1, h2⟩ := h
  simp only [map_char]
  split_ifs <;> omega

/-- C7: width folding round-trips.  For a string of ASCII scalar values,
`to_halfwidth (to_fullwidth s) = s`; for a string of fullwidth-ASCII
scalar values, `to_fullwidth (to_halfwidth t) = t`. -/
theorem width_fold_roundtrip (s t : List Nat)
    (hA : ∀ c ∈ s, isAsciiCode c) (hF : ∀ c ∈ t, isFullwidthAsciiCode c) :
    to_halfwidth (to_fullwidth s) = s ∧ to_fullwidth (to_halfwidth t) = t := by
  constructor
  · unfold to_fullwidth to_halfwidth shift_unicode
    rw [List.map_map]
    conv_rhs => rw [show s = s.map id from (List.map_id s).symm]
    exact List.map_congr_left fun c hc => map_char_half_full c (hA c hc)
  · unfold to_fullwidth to_halfwidth shift_unicode
    rw [List.map_map]
    conv_rhs => rw [show t = t.map id from (List.map_id t).symm]
    exact List.map_congr_left fun c hc => map_char_full_half c (hF c hc)

/-- Witness for C7 at concrete inputs: an ASCII string of scalar values
and a fullwidth-ASCII string of scalar values. -/
theorem width_fold_roundtrip_witness :
    to_halfwidth (to_fullwidth [0x41, 0x62, 0x63, 0x20, 0x31, 0x21]) =
        [0x41, 0x62, 0x63, 0x20, 0x31, 0x21] ∧
      to_fullwidth (to_halfwidth [0xff21, 0xff42, 0xff11]) =
        [0xff21, 0xff42, 0xff11] :=
  width_fold_roundtrip [0x41, 0x62, 0x63, 0x20, 0x31, 0x21]
    [0xff21, 0xff42, 0xff11] (by decide) (by decide)

/-- C8: request validation rejects with `BadRequest` exactly when the
trimmed input has real length `< 1` while the hashtag flag is unset, or
real length `> 37`; consequently every accepted query satisfies
`1 ≤ real_len ≤ 37` unless the hashtag flag is set, and both the empty
query (without hashtag flag) and a 38-character query are rejected. -/
theorem validate_bad_request_iff (payload : CRequest) :
    (validate payload = ValidateResult.badRequest ↔
      (real_string_len (rustTrim payload.input) < 1 ∧ ¬payload.hashtag) ∨
        real_string_len (rustTrim payload.input) > 37) ∧
    (validate payload = ValidateResult.ok →
      (1 ≤ real_string_len (rustTrim payload.input) ∧
        real_string_len (rustTrim payload.input) ≤ 37) ∨
        payload.hashtag = true) ∧
    validate { input := "", hashtag := false } = ValidateResult.badRequest ∧
    validate { input := String.mk (List.replicate 38 'a'), hashtag := false } =
      ValidateResult.badRequest := by
  refine ⟨?_, ?_, ?_, ?_⟩
  · simp only [validate]
    split_ifs with h
    · simpa using h
    · simp only [reduceCtorEq, false_iff]
      tauto
  · simp only [validate]
    split_ifs with h
    · intro hc
      exact absurd hc (by simp)
    · intro _
      by_cases hh : payload.hashtag
      · exact Or.inr hh
      · left
        rw [Bool.not_eq_true] at hh
        rw [hh] at h
        simp at h
        omega
  · decide
  · decide

/-- Witness for C8: a concrete five-character query without the hashtag
flag passes validation and hence has real length between 1 and 37. -/
theorem validate_bad_request_iff_witness :
    (1 ≤ real_string_len (rustTrim "hello") ∧
      real_string_len (rustTrim "hello") ≤ 37) ∨ false = true :=
  (validate_bad_request_iff { input := "hello", hashtag := false }).2.1
    (by decide)

/-! ## Claim theorems (C9, C2) -/

/-- C9 counterexample: the input `ｎおはよｎ` is classified as Japanese
and ends with fullwidth `ｎ`, yet `adjust` rewrites BOTH occurrences of
`ｎ` (the leading one included), producing `んおはよん` instead of the
claimed `ｎおはよん` where only the trailing character changes. -/
theorem adjust_trailing_n_counterexample :
    specLangClassify "ｎおはよｎ" = QueryLang.japanese ∧
      strEndsWith "ｎおはよｎ" 'ｎ' = true ∧
      adjust specLangClassify "ｎおはよｎ" = "んおはよん" ∧
      "んおはよん" ≠ "ｎおはよん" :=
  ⟨by decide, by decide, by decide, by decide⟩

/-- C9 amended: for an input classified as Japanese that ends with
fullwidth `ｎ`, `adjust` replaces EVERY occurrence of `ｎ` by `ん` (the
trailing one included); provided no roman letter remains among the last
two characters after the replacement, the result is exactly the input
with each `ｎ` replaced and it ends with `ん`. -/
theorem adjust_replaces_every_fullwidth_n
    (langOf : String → QueryLang) (input : String)
    (hlang : langOf input = QueryLang.japanese)
    (hend : strEndsWith input 'ｎ' = true)
    (hrom : ((replaceChar input 'ｎ' 'ん').data.reverse.take 2).filter
      is_roman_letter_c = []) :
    adjust langOf input = replaceChar input 'ｎ' 'ん' ∧
      strEndsWith (adjust langOf input) 'ん' = true := by
  have hq1 : adjust langOf input = replaceChar input 'ｎ' 'ん' := by
    simp only [adjust, hlang, hend, eq_self_iff_true, true_and, and_self,
      if_true]
    split_ifs with h
    · rw [hrom]
      simp only [List.map_nil, List.sum_nil, Nat.sub_zero]
      unfold utf8LenStr
      rw [byteTake_full]
    · rfl
  exact ⟨hq1, hq1 ▸ replaceChar_endsWith input 'ｎ' 'ん' hend⟩

/-- Witness for the C9 amended claim at the concrete input `おはよｎ`,
which normalizes to `おはよん`. -/
theorem adjust_replaces_every_fullwidth_n_witness :
    adjust specLangClassify "おはよｎ" = replaceChar "おはよｎ" 'ｎ' 'ん' ∧
      strEndsWith (adjust specLangClassify "おはよｎ") 'ん' = true :=
  adjust_replaces_every_fullwidth_n specLangClassify "おはよｎ"
    (by decide) (by decide) (by decide)

/-- C2 counterexample: for an inflected-word parse the producer runs even
though the query has only three characters and `word_exists` is true —
the length and exact-term gates are bypassed, so the producer can yield
results for a query that already exists as an exact term. -/
theorem sreader_should_run_counterexample :
    sreader_should_run ParsedKind.inflectedWord
        { q_lang := QueryLang.japanese, form := QueryForm.normal,
          query_str := "食べた" } true = true ∧
      real_string_len "食べた" ≤ 3 :=
  ⟨by decide, by decide⟩

/-- C2 amended: the sentence-reader producer runs exactly when the parse
succeeded, the script is Japanese, the form is normal, the query is
nonempty, and EITHER the parse is an inflected word (in which case the
length and exact-term gates do not apply) OR the parse is a sentence,
the query is longer than three characters and does not already exist as
an exact term. -/
theorem sreader_should_run_iff (parsed : ParsedKind) (q : SQuery)
    (we : Bool) :
    sreader_should_run parsed q we = true ↔
      (parsed ≠ ParsedKind.nothing ∧ q.q_lang = QueryLang.japanese ∧
        q.form = QueryForm.normal ∧ q.query_str ≠ "" ∧
        (parsed = ParsedKind.inflectedWord ∨
          (parsed = ParsedKind.sentence ∧
            real_string_len q.query_str > 3 ∧ we = false))) := by
  unfold sreader_should_run
  rcases q with ⟨l, f, s⟩
  cases parsed <;> cases we <;> split_ifs <;> simp_all <;>
    (rename_i hx; rcases hx with h | h | h | h <;> simp_all)

/-- Witness for C2 amended: a five-character sentence query with the base
conditions satisfied and `word_exists` false makes the producer run. -/
theorem sreader_should_run_iff_witness :
    sreader_should_run ParsedKind.sentence
      { q_lang := QueryLang.japanese, form := QueryForm.normal,
        query_str := "これは漢字" } false = true :=
  (sreader_should_run_iff ParsedKind.sentence
    { q_lang := QueryLang.japanese, form := QueryForm.normal,
      query_str := "これは漢字" } false).mpr (by decide)

/-! ## Claim theorems (C4) -/

/-- C4 counterexample: for the word with single-kanji reading 火 (kana ひ,
frequency bump 25), a mismatching POS and the morpheme 水, the code
yields 0 — the bump is added BEFORE the saturating POS penalty and is
gated on the word's reading — while the spec formula (penalty first,
bump last, gated on the morpheme) yields 25. -/
theorem word_furi_order_counterexample :
    word_furi_order furiFreqCx furiWordCx (some 1) "水" = 0 ∧
      furi_order_spec furiFreqCx furiWordCx (some 1) "水" = 25 :=
  ⟨by decide, by decide⟩

/-- C4 amended: `word_furi_order` equals the sum of 100 when the word's
reading equals the morpheme plus the normalized-reading-frequency bump
(present when the WORD'S READING is a single kanji), then +20 on POS
match or a SATURATING −30 applied to that partial sum on POS mismatch,
and only afterwards +2 for common and +2 for a JLPT level. -/
theorem word_furi_order_characterization (freq : Char → String → Option Nat)
    (i : WordM) (pos : Option Nat) (morph : String) :
    word_furi_order freq i pos morph =
      (match pos with
       | none => (if i.reading = morph then 100 else 0) + reading_bump freq i
       | some p =>
         if has_pos i p then
           (if i.reading = morph then 100 else 0) + reading_bump freq i + 20
         else
           ((if i.reading = morph then 100 else 0)
             + reading_bump freq i) - 30)
      + (if i.common then 2 else 0) + (if i.jlpt.isSome then 2 else 0) := by
  unfold word_furi_order reading_bump
  rcases pos with _ | p <;>
    rcases hh : i.reading.data.head? with _ | k <;>
    simp only [hh] <;>
    split_ifs <;>
    (try cases hf : freq k i.kana) <;>
    simp_all [Option.getD]

/-! ## Claim theorems (C3) -/

lemma mergeFuriAux_eq_none_iff (furi : List FuriPart) :
    ∀ (kana : List String) (pool : List Char),
      mergeFuriAux kana pool furi = none ↔
        pool.length < totalKanjiNeed furi := by
  induction furi with
  | nil =>
    intro kana pool
    simp [mergeFuriAux, totalKanjiNeed]
  | cons part rest ih =>
    intro kana pool
    cases hk : part.kanji with
    | none =>
      cases kana with
      | nil =>
        simp only [mergeFuriAux, hk]
        rw [ih]
        simp [totalKanjiNeed, hk]
      | cons r krest =>
        simp only [mergeFuriAux, hk, Option.map_eq_none']
        rw [ih]
        simp [totalKanjiNeed, hk]
    | some k =>
      simp only [mergeFuriAux, hk]
      split_ifs with hlen
      · rw [Option.map_eq_none']
        rw [ih]
        simp only [totalKanjiNeed, List.map_cons, List.sum_cons, hk,
          List.length_drop]
        omega
      · simp only [totalKanjiNeed, List.map_cons, List.sum_cons, hk,
          reduceCtorEq, false_iff, not_lt, true_iff]
        omega

/-- C3 counterexample: for the surface 行行 and the dictionary furigana
segments [行|い]く, the surface has NO kana run while the furigana has a
kana segment — the kana pool underflows — yet `set_furigana` still
emits furigana for the whole part, and the emitted furigana annotates
only one of the two surface kanji, so it does not cover every kanji of
the surface. -/
theorem merge_furigana_counterexample :
    (all_words_with_ct "行行" CharType.kana).length = 0 ∧
      (([⟨some "行", "い"⟩, ⟨none, "く"⟩] : List FuriPart).filter
        (fun p => p.kanji.isNone)).length = 1 ∧
      set_furigana (fun _ => some [⟨some "行", "い"⟩, ⟨none, "く"⟩])
        [⟨"行行", "いくいく"⟩] = some "[行|い]" ∧
      countKanji "[行|い]" = 1 ∧ countKanji "行行" = 2 :=
  ⟨by decide, by decide, by decide, by decide, by decide⟩

/-- C3 amended: only a KANJI-pool underflow aborts the merge — the merge
step of `Part::set_furigana` emits no furigana for a morpheme exactly
when the furigana's kanji segments demand more kanji characters than
the morpheme surface provides; a kana-run underflow is silently skipped
and full coverage of the surface's kanji is not guaranteed. -/
theorem merge_furigana_kanji_underflow_iff (src : String)
    (furi : List FuriPart) :
    merge_furigana src furi = none ↔
      (((all_words_with_ct src CharType.kanji).map
        String.data).flatten).length < totalKanjiNeed furi := by
  unfold merge_furigana
  exact mergeFuriAux_eq_none_iff furi _ _

/-- Witness for C3 amended: a one-kanji surface cannot satisfy a
two-kanji furigana segment, so the merge emits nothing. -/
theorem merge_furigana_kanji_underflow_iff_witness :
    merge_furigana "行" [⟨some "行行", "いい"⟩] = none :=
  (merge_furigana_kanji_underflow_iff "行" [⟨some "行行", "いい"⟩]).mpr
    (by decide)

/-! ## Claim theorems (C5, C6) -/

lemma sorted_lt_of_sorted_le_nodup {l : List Nat}
    (hs : l.Sorted (· ≤ ·)) (hn : l.Nodup) : l.Sorted (· < ·) :=
  (hs.and hn).imp (fun h => lt_of_le_of_ne h.1 h.2)

/-- C5: `make_query` returns `None` exactly when no n-gram of the padded
input maps to a known term-id, and every `TermSet` it returns is sorted
strictly ascending (hence unique) and contains exactly the term-ids the
dictionary assigns to some n-gram of the padded input. -/
theorem make_query_spec (dict : List Char → Option Nat) (n : Nat)
    (inp : List Char) :
    (make_query dict n inp = none ↔
      ∀ g ∈ wordgrams n (pad inp (n - 1)), dict g = none) ∧
    (∀ ts, make_query dict n inp = some ts →
      List.Sorted (· < ·) ts ∧
        ∀ x, x ∈ ts ↔ ∃ g ∈ wordgrams n (pad inp (n - 1)),
          dict g = some x) := by
  simp only [make_query, termSetNew]
  constructor
  · split_ifs with h
    · simp only [true_iff]
      have hfm : (wordgrams n (pad inp (n - 1))).filterMap dict = [] := by
        have hp := List.perm_insertionSort (· ≤ ·)
          ((wordgrams n (pad inp (n - 1))).filterMap dict)
        rw [h] at hp
        exact (List.Perm.symm hp).eq_nil
      exact List.filterMap_eq_nil_iff.mp hfm
    · simp only [reduceCtorEq, false_iff]
      intro hall
      apply h
      have hfm : (wordgrams n (pad inp (n - 1))).filterMap dict = [] :=
        List.filterMap_eq_nil_iff.mpr hall
      rw [hfm]
      rfl
  · intro ts hts
    split_ifs at hts with h
    injection hts with hts'
    subst hts'
    refine ⟨?_, ?_⟩
    · exact sorted_lt_of_sorted_le_nodup
        (List.Pairwise.sublist (List.dedup_sublist _)
          (List.sorted_insertionSort _ _))
        (List.nodup_dedup _)
    · intro x
      rw [List.mem_dedup]
      rw [List.Perm.mem_iff (List.perm_insertionSort _ _)]
      rw [List.mem_filterMap]

/-- Witness for C5 at a concrete dictionary and the input "ab" with
trigram window 3: the compiled term set is the sorted unique list of the
mapped term-ids. -/
theorem make_query_spec_witness :
    List.Sorted (· < ·)
      ((make_query
        (fun g => if g = ['a', 'b', padChar] then some 7
          else if g = [padChar, 'a', 'b'] then some 3 else none)
        3 ['a', 'b']).getD []) :=
  ((make_query_spec
    (fun g => if g = ['a', 'b', padChar] then some 7
      else if g = [padChar, 'a', 'b'] then some 3 else none)
    3 ['a', 'b']).2 [3, 7] (by decide)).1

/-- C6: inside the gloss search (query language Foreign or Undetected),
the romaji fallback — converting the query with `format_romaji_nn` then
`to_hiragana` and running a native search merged into the same result
set — is performed exactly when `use_original` is false, the gloss hit
count is below 50, the query could be romaji, and the lowercased query
is not a known term of the foreign engine; when performed, the searched
fallback query is the hiragana conversion and the merged rows keep each
native item's relevance and language tag after the gloss rows. -/
theorem gloss_romaji_fallback_iff (fmtRomajiNN toHira : String → String)
    (env : GlossEnv) (q : GQuery)
    (hlang : q.language = QueryLang.foreign
      ∨ q.language = QueryLang.undetected) :
    ((gloss_results fmtRomajiNN toHira env q).fallbackPerformed = true ↔
      (q.use_original = false ∧ env.glossItems.length < 50 ∧
        env.couldBeRomaji = true ∧ env.hasTermLower = false)) ∧
    ((gloss_results fmtRomajiNN toHira env q).fallbackPerformed = true →
      (gloss_results fmtRomajiNN toHira env q).fallbackQuery =
        some (toHira (fmtRomajiNN q.query))) ∧
    (∀ native, env.nativeItems = some native →
      (gloss_results fmtRomajiNN toHira env q).fallbackPerformed = true →
      ((gloss_results fmtRomajiNN toHira env q).merged.map
          (fun i => (i.relevance, i.language)) =
        env.glossItems.map (fun i => (i.relevance, i.language)) ++
          native.map (fun i => (i.relevance, i.language)))) := by
  unfold gloss_results
  rw [if_neg (not_not_intro hlang)]
  by_cases hc : ¬q.use_original = true ∧ env.glossItems.length < 50
      ∧ env.couldBeRomaji = true ∧ ¬env.hasTermLower = true
  · rw [if_pos hc]
    obtain ⟨h1, h2, h3, h4⟩ := hc
    cases hn : env.nativeItems with
    | none =>
      refine ⟨by simp_all, fun _ => rfl, ?_⟩
      intro native hnative
      exact absurd hnative (by simp)
    | some native =>
      refine ⟨by simp_all, fun _ => rfl, ?_⟩
      intro native2 hnative _
      injection hnative with hnative'
      subst hnative'
      simp
  · rw [if_neg hc]
    refine ⟨?_, by simp, ?_⟩
    · simp only [reduceCtorEq, false_iff]
      intro hcon
      exact hc ⟨by simp [hcon.1], hcon.2.1, hcon.2.2.1, by simp [hcon.2.2.2]⟩
    · intro native _ hperf
      exact absurd hperf (by simp)

/-! ## Claim theorems (C1) -/

lemma foldl_worseOf_mem {I : Type} (rest : List (PEntry I)) :
    ∀ (e : PEntry I), rest.foldl worseOf e ∈ e :: rest := by
  induction rest with
  | nil => intro e; simp [List.foldl]
  | cons a t ih =>
    intro e
    have hw : worseOf e a = e ∨ worseOf e a = a := by
      unfold worseOf; split_ifs <;> simp
    rcases List.mem_cons.mp (ih (worseOf e a)) with h | h
    · rcases hw with hw | hw
      · rw [List.foldl_cons, h, hw]
        exact List.mem_cons_self _ _
      · rw [List.foldl_cons, h, hw]
        exact List.mem_cons_of_mem _ (List.mem_cons_self _ _)
    · rw [List.foldl_cons]
      exact List.mem_cons_of_mem _ (List.mem_cons_of_mem _ h)

lemma removeWorst_length {I : Type} [DecidableEq I]
    (l : List (PEntry I)) (hne : l ≠ []) :
    (removeWorst l).length = l.length - 1 := by
  cases l with
  | nil => exact absurd rfl hne
  | cons e rest =>
    unfold removeWorst findWorst
    simp only []
    rw [List.length_erase_of_mem (foldl_worseOf_mem rest e)]

lemma cinsert_capacity {I : Type} [DecidableEq I] (c : PrioContainer I)
    (it : RItem I) : (cinsert c it).capacity = c.capacity := by
  unfold cinsert
  cases hf : c.entries.find? (fun e => decide (e.item = it.item)) with
  | none => rfl
  | some e =>
    dsimp only
    split_ifs <;> rfl

lemma cinsert_length {I : Type} [DecidableEq I] (c : PrioContainer I)
    (it : RItem I) (hcap : 1 ≤ c.capacity)
    (h : c.entries.length ≤ c.capacity) :
    (cinsert c it).entries.length ≤ c.capacity := by
  unfold cinsert
  cases hf : c.entries.find? (fun e => decide (e.item = it.item)) with
  | some e =>
    dsimp only
    split_ifs <;> simpa using h
  | none =>
    dsimp only
    split_ifs with hlen
    · rw [removeWorst_length _ (by simp)]
      simp only [List.length_append, List.length_singleton] at hlen ⊢
      omega
    · simp only [List.length_append, List.length_singleton] at hlen ⊢
      omega

lemma removeWorst_sublist {I : Type} [DecidableEq I]
    (l : List (PEntry I)) : (removeWorst l).Sublist l := by
  unfold removeWorst
  cases findWorst l with
  | none => exact List.Sublist.refl l
  | some w => exact List.erase_sublist w l

lemma cinsert_distinct {I : Type} [DecidableEq I] (c : PrioContainer I)
    (it : RItem I) (h : distinctItems c.entries) :
    distinctItems (cinsert c it).entries := by
  unfold cinsert
  cases hf : c.entries.find? (fun e => decide (e.item = it.item)) with
  | some e =>
    dsimp only
    split_ifs
    · unfold distinctItems
      rw [List.pairwise_map]
      have hitem : ∀ x : PEntry I,
          (if x.item = it.item then
            ({ item := it.item, relevance := it.relevance,
               seq := c.counter } : PEntry I)
          else x).item = x.item := by
        intro x
        split_ifs with hx
        · exact hx.symm
        · rfl
      exact h.imp (by
        intro a b hab
        rw [hitem a, hitem b]
        exact hab)
    · exact h
  | none =>
    dsimp only
    have hnone : ∀ e ∈ c.entries, e.item ≠ it.item := by
      intro e he
      have := List.find?_eq_none.mp hf e he
      simpa using this
    have hadded : distinctItems (c.entries ++
        [{ item := it.item, relevance := it.relevance,
           seq := c.counter }]) := by
      unfold distinctItems
      rw [List.pairwise_append]
      refine ⟨h, List.pairwise_singleton _ _, ?_⟩
      intro a ha b hb
      simp only [List.mem_singleton] at hb
      subst hb
      exact hnone a ha
    split_ifs with hlen
    · exact List.Pairwise.sublist (removeWorst_sublist _) hadded
    · exact hadded

lemma push_capacity {I : Type} [DecidableEq I] (b : OutBuilder I)
    (it : RItem I) : ((b.push it).2).p.capacity = b.p.capacity := by
  unfold OutBuilder.push
  split_ifs
  · exact cinsert_capacity b.p it
  · rfl

lemma pushAll_inv {I : Type} [DecidableEq I] (items : List (RItem I)) :
    ∀ (b : OutBuilder I), 1 ≤ b.p.capacity →
      b.p.entries.length ≤ b.p.capacity → distinctItems b.p.entries →
      (pushAll b items).p.capacity = b.p.capacity ∧
        (pushAll b items).p.entries.length ≤ b.p.capacity ∧
        distinctItems (pushAll b items).p.entries := by
  induction items with
  | nil =>
    intro b hcap hlen hd
    exact ⟨rfl, hlen, hd⟩
  | cons it rest ih =>
    intro b hcap hlen hd
    have hstep : pushAll b (it :: rest) = pushAll ((b.push it).2) rest := rfl
    rw [hstep]
    have hcap2 : ((b.push it).2).p.capacity = b.p.capacity :=
      push_capacity b it
    have hlen2 : ((b.push it).2).p.entries.length ≤
        ((b.push it).2).p.capacity := by
      unfold OutBuilder.push
      split_ifs
      · exact (cinsert_capacity b.p it).symm ▸ cinsert_length b.p it hcap hlen
      · exact hlen
    have hd2 : distinctItems ((b.push it).2).p.entries := by
      unfold OutBuilder.push
      split_ifs
      · exact cinsert_distinct b.p it hd
      · exact hd
    obtain ⟨h1, h2, h3⟩ := ih ((b.push it).2) (hcap2 ▸ hcap) hlen2 hd2
    exact ⟨h1.trans hcap2, hcap2 ▸ h2, h3⟩

lemma dup_collapse {I : Type} [DecidableEq I] (f : I → Bool) (x : I)
    (r1 r2 len : Nat) (hlen : 1 ≤ len) (hf : f x = false) :
    ((pushAll (OutBuilder.new f len)
        [{ item := x, relevance := r1 }, { item := x, relevance := r2 }]
      ).p.entries.map (fun e => (e.item, e.relevance))) =
      [(x, Nat.max r1 r2)] := by
  have hcap : ¬(len < 1) := by omega
  simp [pushAll, OutBuilder.new, OutBuilder.push, cinsert, hf, List.find?,
    hcap]
  split_ifs with h
  · simp [Nat.max_eq_right (Nat.le_of_lt h)]
  · simp [Nat.max_eq_left (Nat.le_of_not_lt h)]

lemma stable_tie {I : Type} [DecidableEq I] (f : I → Bool) (a b : I)
    (r : Nat) (hab : a ≠ b) (hfa : f a = false) (hfb : f b = false) :
    ((pushAll (OutBuilder.new f 1)
        [{ item := a, relevance := r }, { item := b, relevance := r }]
      ).p.entries.map (fun e => e.item)) = [a] := by
  simp [pushAll, OutBuilder.new, OutBuilder.push, cinsert, hfa, hfb,
    List.find?, hab, Ne.symm hab, removeWorst, findWorst, worseOf]

/-- C1: the OutputBuilder push and container laws.  (1) Pushing an item
the filter filters out returns `false` and leaves the builder untouched;
(2) pushing an item the filter lets through returns `true` and inserts
it; (3) for every insertion sequence into a builder of positive capacity
`limit`, the builder holds at most `limit` entries and entry item
identities stay pairwise distinct; (4) pushing two copies of the same
item collapses them to one entry carrying the best of the two scores;
(5) with equal relevances the item inserted first survives capacity
eviction — first insertion wins the tie. -/
theorem out_builder_push_spec :
    (∀ (I : Type) [DecidableEq I] (b : OutBuilder I) (it : RItem I),
      b.filter it.item = true → b.push it = (false, b)) ∧
    (∀ (I : Type) [DecidableEq I] (b : OutBuilder I) (it : RItem I),
      b.filter it.item = false →
        (b.push it).1 = true ∧ (b.push it).2.p = cinsert b.p it) ∧
    (∀ (I : Type) [DecidableEq I] (f : I → Bool) (len : Nat)
        (items : List (RItem I)), 1 ≤ len →
      (pushAll (OutBuilder.new f len) items).p.entries.length ≤ len ∧
        distinctItems (pushAll (OutBuilder.new f len) items).p.entries) ∧
    (∀ (I : Type) [DecidableEq I] (f : I → Bool) (x : I)
        (r1 r2 len : Nat), 1 ≤ len → f x = false →
      ((pushAll (OutBuilder.new f len)
          [{ item := x, relevance := r1 }, { item := x, relevance := r2 }]
        ).p.entries.map (fun e => (e.item, e.relevance))) =
        [(x, Nat.max r1 r2)]) ∧
    (∀ (I : Type) [DecidableEq I] (f : I → Bool) (a b : I) (r : Nat),
      a ≠ b → f a = false → f b = false →
      ((pushAll (OutBuilder.new f 1)
          [{ item := a, relevance := r }, { item := b, relevance := r }]
        ).p.entries.map (fun e => e.item)) = [a]) := by
  refine ⟨?_, ?_, ?_, ?_, ?_⟩
  · intro I _ b it hf
    unfold OutBuilder.push
    simp [hf]
  · intro I _ b it hf
    unfold OutBuilder.push
    simp [hf]
  · intro I _ f len items hlen
    have h := pushAll_inv items (OutBuilder.new f len) hlen
      (by simp [OutBuilder.new]) (by simp [OutBuilder.new, distinctItems])
    exact ⟨h.2.1, h.2.2⟩
  · intro I _ f x r1 r2 len hlen hf
    exact dup_collapse f x r1 r2 len hlen hf
  · intro I _ f a b r hab hfa hfb
    exact stable_tie f a b r hab hfa hfb

/-- Witness for C1 at concrete instances over `Nat`: a filtered push is
rejected, a three-element sequence stays within capacity two, duplicate
pushes collapse to the best score, and an equal-relevance tie keeps the
first item. -/
theorem out_builder_push_spec_witness :
    ((OutBuilder.new (fun i => decide (i = 0)) 2).push
        { item := 0, relevance := 5 } =
      (false, OutBuilder.new (fun i => decide (i = 0)) 2)) ∧
    ((pushAll (OutBuilder.new (fun i => decide (i = 0)) 2)
        [{ item := 1, relevance := 3 }, { item := 2, relevance := 4 },
          { item := 3, relevance := 5 }]).p.entries.length ≤ 2) ∧
    ((pushAll (OutBuilder.new (fun i => decide (i = 0)) 2)
        [{ item := 1, relevance := 3 }, { item := 1, relevance := 7 }]
      ).p.entries.map (fun e => (e.item, e.relevance)) =
      [(1, Nat.max 3 7)]) ∧
    ((pushAll (OutBuilder.new (fun i => decide (i = 0)) 1)
        [{ item := 1, relevance := 3 }, { item := 2, relevance := 3 }]
      ).p.entries.map (fun e => e.item) = [1]) :=
  ⟨out_builder_push_spec.1 Nat
      (OutBuilder.new (fun i => decide (i = 0)) 2)
      { item := 0, relevance := 5 } (by decide),
    (out_builder_push_spec.2.2.1 Nat (fun i => decide (i = 0)) 2
      [{ item := 1, relevance := 3 }, { item := 2, relevance := 4 },
        { item := 3, relevance := 5 }] (by decide)).1,
    out_builder_push_spec.2.2.2.1 Nat (fun i => decide (i = 0)) 1 3 7 2
      (by decide) (by decide),
    out_builder_push_spec.2.2.2.2 Nat (fun i => decide (i = 0)) 1 2 3
      (by decide) (by decide) (by decide)⟩

/-- Witness for C6 at a concrete environment: with `use_original` false,
three gloss hits, a romaji-looking query unknown to the foreign engine,
the fallback fires. -/
theorem gloss_romaji_fallback_iff_witness :
    (gloss_results (fun s => s) (fun _ => "たべる")
      { glossItems := [{ word := 1, relevance := 5, language := none }],
        couldBeRomaji := true, hasTermLower := false,
        nativeItems := some [] }
      { language := QueryLang.undetected, use_original := false,
        query := "taberu" }).fallbackPerformed = true :=
  ((gloss_romaji_fallback_iff (fun s => s) (fun _ => "たべる")
    { glossItems := [{ word := 1, relevance := 5, language := none }],
      couldBeRomaji := true, hasTermLower := false,
      nativeItems := some [] }
    { language := QueryLang.undetected, use_original := false,
      query := "taberu" } (Or.inr rfl)).1).mpr (by decide)

end Jotoba
